import Mathlib

/-!
Verification of the retrieval-matching core of `src/app.py` (safebot).

The core consists of `preprocess` (normalization), `vectorize` (token counters),
`cosine_similarity` (scoring) and `find_best_match` (selection under a threshold).
`preprocess` calls three NLTK library functions that are external to this repository
(`word_tokenize`, `stopwords.words "english"`, `WordNetLemmatizer.lemmatize`); these
are modelled explicitly below, each with a doc comment stating the modelled behavior.
Python floats are idealized as real numbers.
-/

namespace Safebot

/-- Model of `nltk.corpus.stopwords.words("english")`, external library data not in this
repository: the standard NLTK English stop-word list. -/
def stop_words : List String :=
  ["i", "me", "my", "myself", "we", "our", "ours", "ourselves", "you", "you\x27re",
   "you\x27ve", "you\x27ll", "you\x27d", "your", "yours", "yourself", "yourselves",
   "he", "him", "his", "himself", "she", "she\x27s", "her", "hers", "herself",
   "it", "it\x27s", "its", "itself", "they", "them", "their", "theirs", "themselves",
   "what", "which", "who", "whom", "this", "that", "that\x27ll", "these", "those",
   "am", "is", "are", "was", "were", "be", "been", "being",
   "have", "has", "had", "having", "do", "does", "did", "doing",
   "a", "an", "the", "and", "but", "if", "or", "because", "as", "until", "while",
   "of", "at", "by", "for", "with", "about", "against", "between", "into", "through",
   "during", "before", "after", "above", "below", "to", "from", "up", "down",
   "in", "out", "on", "off", "over", "under", "again", "further", "then", "once",
   "here", "there", "when", "where", "why", "how",
   "all", "any", "both", "each", "few", "more", "most", "other", "some", "such",
   "no", "nor", "not", "only", "own", "same", "so", "than", "too", "very",
   "s", "t", "can", "will", "just", "don", "don\x27t", "should", "should\x27ve", "now",
   "d", "ll", "m", "o", "re", "ve", "y", "ain",
   "aren", "aren\x27t", "couldn", "couldn\x27t", "didn", "didn\x27t", "doesn",
   "doesn\x27t", "hadn", "hadn\x27t", "hasn", "hasn\x27t", "haven", "haven\x27t",
   "isn", "isn\x27t", "ma", "mightn", "mightn\x27t", "mustn", "mustn\x27t",
   "needn", "needn\x27t", "shan", "shan\x27t", "shouldn", "shouldn\x27t",
   "wasn", "wasn\x27t", "weren", "weren\x27t", "won", "won\x27t", "wouldn", "wouldn\x27t"]

/-- Model of `nltk.stem.WordNetLemmatizer().lemmatize` (default pos "n"), external library
code not in this repository: a finite table of noun inflections mapped to their WordNet
lemma, identity on every other word. The table includes inflections whose WordNet lemma
is itself an English stop word ("cans" to "can", "wills" to "will"), which the real
lemmatizer produces by suffix stripping. -/
def lemmatize (w : String) : String :=
  if w = "dogs" then "dog"
  else if w = "cats" then "cat"
  else if w = "questions" then "question"
  else if w = "answers" then "answer"
  else if w = "names" then "name"
  else if w = "children" then "child"
  else if w = "cans" then "can"
  else if w = "wills" then "will"
  else w

/-- Split a character list into its maximal whitespace-free chunks; the accumulator holds
the current chunk reversed. This is the whitespace-splitting layer of the tokenizer. -/
def splitChunks : List Char → List Char → List (List Char)
  | [], acc => if acc = [] then [] else [acc.reverse]
  | c :: cs, acc =>
    if c.isWhitespace then
      (if acc = [] then [] else [acc.reverse]) ++ splitChunks cs []
    else
      splitChunks cs (c :: acc)

/-- Split the Treebank contraction suffix: a chunk strictly longer than 3 characters that
ends in `n`, apostrophe, `t` is split into its stem and that three-character suffix
(so "don\x27t" becomes "do" and "n\x27t"); any other chunk is kept whole. -/
def splitContraction (w : List Char) : List (List Char) :=
  if 3 < w.length ∧ w.drop (w.length - 3) = ['n', '\x27', 't'] then
    [w.take (w.length - 3), ['n', '\x27', 't']]
  else
    [w]

/-- Split leading and trailing non-alphanumeric characters off a whitespace-free chunk as
single-character tokens, then split the contraction suffix of the remaining core.
Word-internal punctuation (hyphens, apostrophes) stays inside the core token. -/
def edgeSplit (w : List Char) : List (List Char) :=
  (w.takeWhile (fun c => !c.isAlphanum)).map (fun c => [c]) ++
    (if (((w.dropWhile (fun c => !c.isAlphanum)).reverse.dropWhile
            (fun c => !c.isAlphanum)).reverse) = [] then []
     else splitContraction (((w.dropWhile (fun c => !c.isAlphanum)).reverse.dropWhile
            (fun c => !c.isAlphanum)).reverse)) ++
    ((w.dropWhile (fun c => !c.isAlphanum)).reverse.takeWhile
        (fun c => !c.isAlphanum)).reverse.map (fun c => [c])

/-- Model of Python `str.lower` (as used in src/app.py): lower-case every character.
Semantically identical to `String.toLower`, stated over the character list. -/
def lower (s : String) : String :=
  String.mk (s.toList.map Char.toLower)

/-- Model of `nltk.tokenize.word_tokenize` (Punkt plus Treebank word tokenizer), external
library code not in this repository. Modelled behavior: split on whitespace; split leading
and trailing punctuation off each chunk as separate tokens; split the "n\x27t" contraction
from its stem ("don\x27t" gives "do", "n\x27t"); keep word-internal hyphens and
apostrophes, so "wi-fi" stays a single token. -/
def word_tokenize (text : String) : List String :=
  (((splitChunks text.toList []).map edgeSplit).flatten).map (fun w => String.mk w)

/-- Model of Python `str.isalnum`: true iff the string is nonempty and every character is
alphanumeric. -/
def isalnum (s : String) : Bool :=
  !s.isEmpty && s.toList.all (fun c => c.isAlphanum)

/-- A knowledge-base entry `{question, answer}` (src/app.py `load_knowledge_base`
validates exactly these two fields). -/
structure Entry where
  question : String
  answer : String
deriving DecidableEq

/-- Embeds `preprocess` from src/app.py: tokenize the lower-cased text, keep the tokens
that are alphanumeric and not stop words, and lemmatize each kept token. -/
def preprocess (text : String) : List String :=
  ((word_tokenize (lower text)).filter
      (fun word => isalnum word && !stop_words.contains word)).map lemmatize

/-- Embeds `vectorize` from src/app.py: `Counter(tokens)` modelled as the multiset of the
tokens (the counter value of a token is its multiplicity). -/
def vectorize (tokens : List String) : Multiset String :=
  (tokens : Multiset String)

/-- The numerator of `cosine_similarity` in src/app.py: the sum, over the keys common to
both counters, of the products of the two counts. -/
def numerator (vec1 vec2 : Multiset String) : ℕ :=
  (vec1.toFinset ∩ vec2.toFinset).sum (fun x => vec1.count x * vec2.count x)

/-- `sum1`/`sum2` in `cosine_similarity` of src/app.py: the sum of the squared counts of
a counter. -/
def sumsq (vec : Multiset String) : ℕ :=
  vec.toFinset.sum (fun x => vec.count x ^ 2)

/-- Embeds `cosine_similarity` from src/app.py: numerator over the product of the two
Euclidean norms when that denominator is nonzero, and 0.0 otherwise. -/
noncomputable def cosine_similarity (vec1 vec2 : Multiset String) : ℝ :=
  if Real.sqrt (sumsq vec1) * Real.sqrt (sumsq vec2) ≠ 0 then
    (numerator vec1 vec2 : ℝ) / (Real.sqrt (sumsq vec1) * Real.sqrt (sumsq vec2))
  else 0

/-- One iteration of the loop in `find_best_match` of src/app.py: the state is the pair
`(best_match, highest_similarity)`, updated exactly when the entry's similarity is
strictly greater than the running maximum. -/
noncomputable def bestStep (user_vector : Multiset String) (acc : Option Entry × ℝ)
    (entry : Entry) : Option Entry × ℝ :=
  if cosine_similarity user_vector (vectorize (preprocess entry.question)) > acc.2 then
    (some entry, cosine_similarity user_vector (vectorize (preprocess entry.question)))
  else acc

/-- `find_best_match` from src/app.py with its hard-coded threshold `0.1` generalized to
a parameter: loop over the knowledge base keeping the strictly best entry, then return it
only if the final `highest_similarity` is strictly greater than the threshold. -/
noncomputable def find_best_match_threshold (user_input : String)
    (knowledge_base : List Entry) (threshold : ℝ) : Option Entry :=
  if (knowledge_base.foldl (bestStep (vectorize (preprocess user_input))) (none, 0)).2
      > threshold then
    (knowledge_base.foldl (bestStep (vectorize (preprocess user_input))) (none, 0)).1
  else none

/-- Embeds `find_best_match` from src/app.py: the threshold is hard-coded to 0.1 there. -/
noncomputable def find_best_match (user_input : String) (knowledge_base : List Entry) :
    Option Entry :=
  find_best_match_threshold user_input knowledge_base 0.1

/-- The similarity computed for one knowledge-base entry inside the loop of
`find_best_match`. -/
noncomputable def similarity_to (user_input : String) (entry : Entry) : ℝ :=
  cosine_similarity (vectorize (preprocess user_input)) (vectorize (preprocess entry.question))

/-- The final value of `highest_similarity` in `find_best_match`: the maximum of 0 and
all the per-entry similarities. -/
noncomputable def max_score (user_input : String) (knowledge_base : List Entry) : ℝ :=
  (knowledge_base.map (similarity_to user_input)).foldl max 0

/-- The quantity `entry`-score used inside the loop of `find_best_match`, as a function
of the already-built user vector. -/
noncomputable def entryScore (user_vector : Multiset String) (entry : Entry) : ℝ :=
  cosine_similarity user_vector (vectorize (preprocess entry.question))

lemma bestStep_eq (uv : Multiset String) (acc : Option Entry × ℝ) (e : Entry) :
    bestStep uv acc e = if entryScore uv e > acc.2 then (some e, entryScore uv e) else acc :=
  rfl

lemma similarity_to_eq (q : String) (e : Entry) :
    similarity_to q e = entryScore (vectorize (preprocess q)) e :=
  rfl

lemma sumsq_eq_zero (vec : Multiset String) : sumsq vec = 0 ↔ vec = 0 := by
  unfold sumsq
  rw [Finset.sum_eq_zero_iff]
  constructor
  · intro h
    rw [Multiset.eq_zero_iff_forall_not_mem]
    intro x hx
    have hz := h x (Multiset.mem_toFinset.2 hx)
    rw [pow_eq_zero_iff (by norm_num), Multiset.count_eq_zero] at hz
    exact hz hx
  · intro h
    subst h
    intro x hx
    simp at hx

lemma sumsq_cast_pos (vec : Multiset String) (h : vec ≠ 0) : (0 : ℝ) < (sumsq vec : ℝ) := by
  have : sumsq vec ≠ 0 := fun hz => h ((sumsq_eq_zero vec).1 hz)
  exact_mod_cast Nat.pos_of_ne_zero this

lemma cosine_nonneg (vec1 vec2 : Multiset String) : 0 ≤ cosine_similarity vec1 vec2 := by
  unfold cosine_similarity
  split
  · exact div_nonneg (Nat.cast_nonneg _)
      (mul_nonneg (Real.sqrt_nonneg _) (Real.sqrt_nonneg _))
  · exact le_refl 0

lemma numerator_le_sqrt_mul_sqrt (vec1 vec2 : Multiset String) :
    (numerator vec1 vec2 : ℝ) ≤ Real.sqrt (sumsq vec1) * Real.sqrt (sumsq vec2) := by
  have hnum : (numerator vec1 vec2 : ℝ) =
      (vec1.toFinset ∩ vec2.toFinset).sum
        (fun x => (vec1.count x : ℝ) * (vec2.count x : ℝ)) := by
    unfold numerator
    push_cast
    rfl
  have hcs := Real.sum_mul_le_sqrt_mul_sqrt (vec1.toFinset ∩ vec2.toFinset)
    (fun x => (vec1.count x : ℝ)) (fun x => (vec2.count x : ℝ))
  have h1 : (vec1.toFinset ∩ vec2.toFinset).sum (fun x => (vec1.count x : ℝ) ^ 2)
      ≤ (sumsq vec1 : ℝ) := by
    have hn : (vec1.toFinset ∩ vec2.toFinset).sum (fun x => vec1.count x ^ 2) ≤ sumsq vec1 :=
      Finset.sum_le_sum_of_subset Finset.inter_subset_left
    calc (vec1.toFinset ∩ vec2.toFinset).sum (fun x => (vec1.count x : ℝ) ^ 2)
        = (((vec1.toFinset ∩ vec2.toFinset).sum (fun x => vec1.count x ^ 2) : ℕ) : ℝ) := by
          push_cast
          rfl
      _ ≤ (sumsq vec1 : ℝ) := by exact_mod_cast hn
  have h2 : (vec1.toFinset ∩ vec2.toFinset).sum (fun x => (vec2.count x : ℝ) ^ 2)
      ≤ (sumsq vec2 : ℝ) := by
    have hn : (vec1.toFinset ∩ vec2.toFinset).sum (fun x => vec2.count x ^ 2) ≤ sumsq vec2 :=
      Finset.sum_le_sum_of_subset Finset.inter_subset_right
    calc (vec1.toFinset ∩ vec2.toFinset).sum (fun x => (vec2.count x : ℝ) ^ 2)
        = (((vec1.toFinset ∩ vec2.toFinset).sum (fun x => vec2.count x ^ 2) : ℕ) : ℝ) := by
          push_cast
          rfl
      _ ≤ (sumsq vec2 : ℝ) := by exact_mod_cast hn
  calc (numerator vec1 vec2 : ℝ)
      ≤ Real.sqrt ((vec1.toFinset ∩ vec2.toFinset).sum (fun x => (vec1.count x : ℝ) ^ 2)) *
        Real.sqrt ((vec1.toFinset ∩ vec2.toFinset).sum (fun x => (vec2.count x : ℝ) ^ 2)) := by
        rw [hnum]
        exact hcs
    _ ≤ Real.sqrt (sumsq vec1) * Real.sqrt (sumsq vec2) :=
        mul_le_mul (Real.sqrt_le_sqrt h1) (Real.sqrt_le_sqrt h2)
          (Real.sqrt_nonneg _) (Real.sqrt_nonneg _)

lemma cosine_le_one (vec1 vec2 : Multiset String) : cosine_similarity vec1 vec2 ≤ 1 := by
  unfold cosine_similarity
  split
  · rename_i hne
    have hnn : 0 ≤ Real.sqrt (sumsq vec1) * Real.sqrt (sumsq vec2) :=
      mul_nonneg (Real.sqrt_nonneg _) (Real.sqrt_nonneg _)
    have hpos : 0 < Real.sqrt (sumsq vec1) * Real.sqrt (sumsq vec2) :=
      lt_of_le_of_ne hnn (Ne.symm hne)
    rw [div_le_one hpos]
    exact numerator_le_sqrt_mul_sqrt vec1 vec2
  · norm_num

lemma cosine_self (vec : Multiset String) (h : vec ≠ 0) :
    cosine_similarity vec vec = 1 := by
  have hnum : numerator vec vec = sumsq vec := by
    unfold numerator sumsq
    rw [Finset.inter_self]
    exact Finset.sum_congr rfl (fun x _ => by ring)
  have hden : Real.sqrt (sumsq vec) * Real.sqrt (sumsq vec) = (sumsq vec : ℝ) :=
    Real.mul_self_sqrt (Nat.cast_nonneg _)
  have hS : (sumsq vec : ℝ) ≠ 0 := ne_of_gt (sumsq_cast_pos vec h)
  unfold cosine_similarity
  rw [hden, hnum, if_pos hS]
  exact div_self hS

lemma cosine_zero_left (vec : Multiset String) : cosine_similarity 0 vec = 0 := by
  unfold cosine_similarity
  have h0 : sumsq (0 : Multiset String) = 0 := rfl
  rw [h0]
  simp

lemma cosine_of_numerator_zero (vec1 vec2 : Multiset String) (h : numerator vec1 vec2 = 0) :
    cosine_similarity vec1 vec2 = 0 := by
  unfold cosine_similarity
  rw [h]
  split
  · simp
  · rfl

lemma cosine_of_sumsq_zero (vec1 vec2 : Multiset String)
    (h : sumsq vec1 = 0 ∨ sumsq vec2 = 0) : cosine_similarity vec1 vec2 = 0 := by
  have hd : Real.sqrt (sumsq vec1) * Real.sqrt (sumsq vec2) = 0 := by
    rcases h with h | h
    · rw [h]
      simp
    · rw [h]
      simp
  unfold cosine_similarity
  rw [hd]
  simp

lemma le_foldl_max (l : List ℝ) (a : ℝ) : a ≤ l.foldl max a := by
  induction l generalizing a with
  | nil => exact le_refl a
  | cons x t ih => exact le_trans (le_max_left a x) (ih (max a x))

lemma foldl_max_le_of_mem (l : List ℝ) (a x : ℝ) (hx : x ∈ l) : x ≤ l.foldl max a := by
  induction l generalizing a with
  | nil => cases hx
  | cons y t ih =>
    rcases List.mem_cons.1 hx with h | h
    · subst h
      exact le_trans (le_max_right a x) (le_foldl_max t (max a x))
    · exact ih (max a y) h

lemma foldl_max_absorb (l : List ℝ) (a : ℝ) (h : ∀ x ∈ l, x ≤ a) : l.foldl max a = a := by
  induction l with
  | nil => rfl
  | cons y t ih =>
    rw [List.foldl_cons, max_eq_left (h y (List.mem_cons_self y t))]
    exact ih (fun x hx => h x (List.mem_cons_of_mem y hx))

lemma bestStep_snd (uv : Multiset String) (acc : Option Entry × ℝ) (e : Entry) :
    (bestStep uv acc e).2 = max acc.2 (entryScore uv e) := by
  rw [bestStep_eq]
  rcases lt_or_le acc.2 (entryScore uv e) with h | h
  · rw [if_pos h, max_eq_right (le_of_lt h)]
  · rw [if_neg (not_lt.2 h), max_eq_left h]

lemma foldl_bestStep_snd (uv : Multiset String) (l : List Entry) (acc : Option Entry × ℝ) :
    (l.foldl (bestStep uv) acc).2 = (l.map (entryScore uv)).foldl max acc.2 := by
  induction l generalizing acc with
  | nil => rfl
  | cons e t ih =>
    rw [List.foldl_cons, List.map_cons, List.foldl_cons, ih (bestStep uv acc e),
      bestStep_snd]

lemma foldl_bestStep_le (uv : Multiset String) (l : List Entry) (acc : Option Entry × ℝ)
    (e : Entry) (he : e ∈ l) : entryScore uv e ≤ (l.foldl (bestStep uv) acc).2 := by
  rw [foldl_bestStep_snd]
  exact foldl_max_le_of_mem _ _ _ (List.mem_map_of_mem (entryScore uv) he)

lemma foldl_bestStep_absorb (uv : Multiset String) (l : List Entry)
    (acc : Option Entry × ℝ) (h : ∀ e ∈ l, entryScore uv e ≤ acc.2) :
    l.foldl (bestStep uv) acc = acc := by
  induction l with
  | nil => rfl
  | cons e t ih =>
    have hstep : bestStep uv acc e = acc := by
      rw [bestStep_eq, if_neg (not_lt.2 (h e (List.mem_cons_self e t)))]
    rw [List.foldl_cons, hstep]
    exact ih (fun x hx => h x (List.mem_cons_of_mem e hx))

lemma foldl_bestStep_spec (uv : Multiset String) (l : List Entry)
    (acc : Option Entry × ℝ) :
    l.foldl (bestStep uv) acc = acc ∨
    ∃ i, ∃ h : i < l.length,
      (l.foldl (bestStep uv) acc).1 = some (l.get ⟨i, h⟩) ∧
      (l.foldl (bestStep uv) acc).2 = entryScore uv (l.get ⟨i, h⟩) ∧
      acc.2 < (l.foldl (bestStep uv) acc).2 ∧
      ∀ j, j < i → ∀ hj : j < l.length,
        entryScore uv (l.get ⟨j, hj⟩) < (l.foldl (bestStep uv) acc).2 := by
  induction l generalizing acc with
  | nil => exact Or.inl rfl
  | cons e t ih =>
    rw [List.foldl_cons]
    rcases lt_or_le acc.2 (entryScore uv e) with hgt | hle
    · have hstep : bestStep uv acc e = (some e, entryScore uv e) := by
        rw [bestStep_eq, if_pos hgt]
      rw [hstep]
      rcases ih (some e, entryScore uv e) with heq | ⟨i, hi, h1, h2, h3, h4⟩
      · refine Or.inr ⟨0, Nat.succ_pos t.length, ?_, ?_, ?_, ?_⟩
        · rw [heq]
          rfl
        · rw [heq]
          rfl
        · rw [heq]
          exact hgt
        · intro j hj hj'
          omega
      · refine Or.inr ⟨i + 1, Nat.succ_lt_succ hi, h1, h2, lt_trans hgt h3, ?_⟩
        intro j hj hj'
        cases j with
        | zero => exact h3
        | succ k => exact h4 k (Nat.lt_of_succ_lt_succ hj) (Nat.lt_of_succ_lt_succ hj')
    · have hstep : bestStep uv acc e = acc := by
        rw [bestStep_eq, if_neg (not_lt.2 hle)]
      rw [hstep]
      rcases ih acc with heq | ⟨i, hi, h1, h2, h3, h4⟩
      · exact Or.inl heq
      · refine Or.inr ⟨i + 1, Nat.succ_lt_succ hi, h1, h2, h3, ?_⟩
        intro j hj hj'
        cases j with
        | zero => exact lt_of_le_of_lt hle h3
        | succ k => exact h4 k (Nat.lt_of_succ_lt_succ hj) (Nat.lt_of_succ_lt_succ hj')

lemma max_score_eq (q : String) (kb : List Entry) :
    max_score q kb = (kb.foldl (bestStep (vectorize (preprocess q))) (none, 0)).2 := by
  rw [foldl_bestStep_snd]
  rfl

/-- C5: for every query string, `find_best_match` on an empty corpus returns `None`
(and, being a total function of the embedding, raises no division-by-zero fault). -/
theorem find_best_match_empty_corpus (user_input : String) :
    find_best_match user_input [] = none := by
  unfold find_best_match find_best_match_threshold
  rw [List.foldl_nil]
  norm_num

/-- C2: `find_best_match` returns the best-matching entry (an entry whose similarity is
the maximal score) if and only if the maximal score is strictly greater than the
threshold 0.1; a maximal score at or below 0.1 yields `None`. -/
theorem find_best_match_some_iff_above_threshold (user_input : String)
    (knowledge_base : List Entry) :
    ((∃ entry, find_best_match user_input knowledge_base = some entry ∧
        similarity_to user_input entry = max_score user_input knowledge_base) ↔
      0.1 < max_score user_input knowledge_base) ∧
    (find_best_match user_input knowledge_base = none ↔
      max_score user_input knowledge_base ≤ 0.1) := by
  unfold find_best_match find_best_match_threshold
  rw [max_score_eq user_input knowledge_base]
  constructor
  · constructor
    · rintro ⟨e, he, hs⟩
      by_cases hc : (knowledge_base.foldl
          (bestStep (vectorize (preprocess user_input))) (none, 0)).2 > 0.1
      · exact hc
      · rw [if_neg hc] at he
        cases he
    · intro h
      rcases foldl_bestStep_spec (vectorize (preprocess user_input)) knowledge_base (none, 0)
        with heq | ⟨i, hi, h1, h2, h3, h4⟩
      · exfalso
        rw [heq] at h
        norm_num at h
      · refine ⟨knowledge_base.get ⟨i, hi⟩, ?_, ?_⟩
        · rw [if_pos h]
          exact h1
        · rw [similarity_to_eq]
          exact h2.symm
  · constructor
    · intro hnone
      by_cases hc : (knowledge_base.foldl
          (bestStep (vectorize (preprocess user_input))) (none, 0)).2 > 0.1
      · exfalso
        rw [if_pos hc] at hnone
        rcases foldl_bestStep_spec (vectorize (preprocess user_input)) knowledge_base
            (none, 0) with heq | ⟨i, hi, h1, h2, h3, h4⟩
        · rw [heq] at hc
          norm_num at hc
        · rw [h1] at hnone
          cases hnone
      · exact not_lt.1 hc
    · intro hle
      rw [if_neg (not_lt.2 hle)]

/-- C1: whenever `find_best_match` returns an entry on a non-empty corpus, that entry is
at some index `i`, its similarity is maximal among all corpus entries, and every entry at
an index strictly below `i` has strictly smaller similarity (so equal maximal scores are
resolved to the lowest index). -/
theorem find_best_match_selects_first_argmax (user_input : String)
    (knowledge_base : List Entry) (entry : Entry)
    (_hne : knowledge_base ≠ [])
    (hfound : find_best_match user_input knowledge_base = some entry) :
    ∃ i, ∃ h : i < knowledge_base.length,
      knowledge_base.get ⟨i, h⟩ = entry ∧
      (∀ e ∈ knowledge_base, similarity_to user_input e ≤ similarity_to user_input entry) ∧
      ∀ j, j < i → ∀ hj : j < knowledge_base.length,
        similarity_to user_input (knowledge_base.get ⟨j, hj⟩) <
          similarity_to user_input entry := by
  unfold find_best_match find_best_match_threshold at hfound
  by_cases hc : (knowledge_base.foldl
      (bestStep (vectorize (preprocess user_input))) (none, 0)).2 > 0.1
  · rw [if_pos hc] at hfound
    rcases foldl_bestStep_spec (vectorize (preprocess user_input)) knowledge_base (none, 0)
      with heq | ⟨i, hi, h1, h2, h3, h4⟩
    · rw [heq] at hfound
      cases hfound
    · have hent : knowledge_base.get ⟨i, hi⟩ = entry :=
        Option.some_inj.1 (h1.symm.trans hfound)
      refine ⟨i, hi, hent, ?_, ?_⟩
      · intro e he
        rw [similarity_to_eq, similarity_to_eq, ← hent, ← h2]
        exact foldl_bestStep_le _ _ _ e he
      · intro j hj hj'
        rw [similarity_to_eq, similarity_to_eq, ← hent, ← h2]
        exact h4 j hj hj'
  · rw [if_neg hc] at hfound
    cases hfound

lemma find_best_match_tie_eval :
    find_best_match "hello world"
        [⟨"hello world", "first"⟩, ⟨"hello world", "second"⟩]
      = some ⟨"hello world", "first"⟩ := by
  have hv : vectorize (preprocess "hello world") ≠ 0 := by decide
  have h1 := cosine_self (vectorize (preprocess "hello world")) hv
  unfold find_best_match find_best_match_threshold
  norm_num [List.foldl_cons, List.foldl_nil, bestStep, h1]

/-- Witness for C1 on a two-entry corpus whose entries tie with score 1: the selected
entry is the one at index 0. -/
theorem find_best_match_selects_first_argmax_witness :
    ∃ i, ∃ h : i < ([⟨"hello world", "first"⟩, ⟨"hello world", "second"⟩] :
        List Entry).length,
      ([⟨"hello world", "first"⟩, ⟨"hello world", "second"⟩] :
          List Entry).get ⟨i, h⟩ = ⟨"hello world", "first"⟩ ∧
      (∀ e ∈ ([⟨"hello world", "first"⟩, ⟨"hello world", "second"⟩] : List Entry),
        similarity_to "hello world" e ≤
          similarity_to "hello world" ⟨"hello world", "first"⟩) ∧
      ∀ j, j < i → ∀ hj : j < ([⟨"hello world", "first"⟩, ⟨"hello world", "second"⟩] :
          List Entry).length,
        similarity_to "hello world"
            (([⟨"hello world", "first"⟩, ⟨"hello world", "second"⟩] :
              List Entry).get ⟨j, hj⟩) <
          similarity_to "hello world" ⟨"hello world", "first"⟩ :=
  find_best_match_selects_first_argmax "hello world"
    [⟨"hello world", "first"⟩, ⟨"hello world", "second"⟩]
    ⟨"hello world", "first"⟩ (by decide) find_best_match_tie_eval

/-- C4: every cosine similarity of two count vectors lies in the closed interval [0, 1],
and it is exactly 0 whenever either vector has zero norm (zero sum of squared counts),
the case in which the denominator of the division would be zero. -/
theorem cosine_similarity_in_unit_interval (vec1 vec2 : Multiset String) :
    (0 ≤ cosine_similarity vec1 vec2 ∧ cosine_similarity vec1 vec2 ≤ 1) ∧
      ((sumsq vec1 = 0 ∨ sumsq vec2 = 0) → cosine_similarity vec1 vec2 = 0) :=
  ⟨⟨cosine_nonneg vec1 vec2, cosine_le_one vec1 vec2⟩, cosine_of_sumsq_zero vec1 vec2⟩

/-- Witness for C4 at the concrete vectors of "a" and of the empty token list. -/
theorem cosine_similarity_in_unit_interval_witness :
    (0 ≤ cosine_similarity (vectorize ["a"]) (vectorize []) ∧
      cosine_similarity (vectorize ["a"]) (vectorize []) ≤ 1) ∧
      cosine_similarity (vectorize ["a"]) (vectorize []) = 0 :=
  ⟨(cosine_similarity_in_unit_interval (vectorize ["a"]) (vectorize [])).1,
    (cosine_similarity_in_unit_interval (vectorize ["a"]) (vectorize [])).2
      (Or.inr (by decide))⟩

/-- C3 counterexample: the claim fails for an entry whose question normalizes to an empty
token sequence — matching the entry "the" against itself at threshold 0 returns `None`,
not the entry with score 1.0, because the self-similarity of an all-zero vector is 0. -/
theorem self_match_counterexample :
    find_best_match_threshold "the" [⟨"the", "ans"⟩] 0 = none := by
  have hp : vectorize (preprocess "the") = 0 := by decide
  unfold find_best_match_threshold
  norm_num [List.foldl_cons, List.foldl_nil, bestStep, hp, cosine_zero_left]

/-- C3 amended: for every entry whose question normalizes to at least one token,
matching the entry's own question against the one-element corpus containing just that
entry with threshold 0 returns that entry, and the self-similarity score is exactly 1. -/
theorem self_match_returns_entry (entry : Entry)
    (hne : preprocess entry.question ≠ []) :
    find_best_match_threshold entry.question [entry] 0 = some entry ∧
      similarity_to entry.question entry = 1 := by
  have hv : vectorize (preprocess entry.question) ≠ 0 := by
    intro h0
    exact hne (by simpa [vectorize, Multiset.coe_eq_zero] using h0)
  have h1 := cosine_self (vectorize (preprocess entry.question)) hv
  constructor
  · unfold find_best_match_threshold
    rw [List.foldl_cons, List.foldl_nil]
    have hstep : bestStep (vectorize (preprocess entry.question)) (none, 0) entry
        = (some entry, 1) := by
      unfold bestStep
      rw [h1]
      norm_num
    rw [hstep]
    norm_num
  · unfold similarity_to
    exact h1

/-- Witness for C3 amended at the entry with question "hello world". -/
theorem self_match_returns_entry_witness :
    preprocess "hello world" ≠ [] ∧
      find_best_match_threshold "hello world" [⟨"hello world", "hi"⟩] 0
        = some ⟨"hello world", "hi"⟩ ∧
      similarity_to "hello world" ⟨"hello world", "hi"⟩ = 1 := by
  have h := self_match_returns_entry ⟨"hello world", "hi"⟩ (by decide)
  exact ⟨by decide, h.1, h.2⟩

/-- C6: when the query normalizes to an empty token sequence, every similarity score
against the corpus is 0 and `find_best_match` returns `None` (a normal no-match outcome,
not a fault). -/
theorem empty_query_scores_zero (user_input : String) (knowledge_base : List Entry)
    (hq : preprocess user_input = []) :
    (∀ entry ∈ knowledge_base, similarity_to user_input entry = 0) ∧
      find_best_match user_input knowledge_base = none := by
  have huv : vectorize (preprocess user_input) = 0 := by
    rw [hq]
    rfl
  have hz : ∀ entry ∈ knowledge_base, similarity_to user_input entry = 0 := by
    intro e he
    unfold similarity_to
    rw [huv]
    exact cosine_zero_left _
  refine ⟨hz, ?_⟩
  unfold find_best_match find_best_match_threshold
  have habs : knowledge_base.foldl (bestStep (vectorize (preprocess user_input))) (none, 0)
      = (none, 0) := by
    apply foldl_bestStep_absorb
    intro e he
    have h0 := hz e he
    rw [similarity_to_eq] at h0
    rw [h0]
  rw [habs]
  norm_num

/-- Witness for C6 at the whitespace-only query "   ". -/
theorem empty_query_scores_zero_witness :
    (∀ entry ∈ ([⟨"hi there", "greeting"⟩] : List Entry),
        similarity_to "   " entry = 0) ∧
      find_best_match "   " [⟨"hi there", "greeting"⟩] = none :=
  empty_query_scores_zero "   " [⟨"hi there", "greeting"⟩] (by decide)

/-- C7 counterexample: the normalizer does not treat a word-internal non-alphanumeric
character as a separator — "wi-fi" yields neither the joined token "wifi" nor the split
tokens "wi", "fi" (it yields no token at all, because "wi-fi" fails `isalnum` and the
whole token is discarded). -/
theorem separator_policy_counterexample :
    ¬ (preprocess "wi-fi" = ["wifi"] ∨ preprocess "wi-fi" = ["wi", "fi"]) := by decide

/-- C7 amended: tokens containing a character that is neither alphanumeric nor whitespace
are deleted whole by the `isalnum` filter, discarding their adjacent alphanumeric
material, rather than being split at that character: "wi-fi" yields no tokens, while the
same material already separated ("wi fi") or joined ("wifi") survives; the claim's own
example "don\x27t" also yields no tokens (it tokenizes to "do", "n\x27t": the first is a
stop word and the second fails `isalnum`). -/
theorem nonalnum_tokens_are_deleted :
    preprocess "wi-fi" = [] ∧ preprocess "wi fi" = ["wi", "fi"] ∧
      preprocess "wifi" = ["wifi"] ∧ preprocess "don\x27t" = [] := by
  exact ⟨by decide, by decide, by decide, by decide⟩

/-- C8: for a fixed corpus and query and thresholds t1 ≤ t2, a no-match at t1 is a
no-match at t2, and when both thresholds produce a match it is the same entry (the
threshold only decides whether the fixed best candidate clears the bar). -/
theorem threshold_monotone (user_input : String) (knowledge_base : List Entry)
    (t1 t2 : ℝ) (h12 : t1 ≤ t2) :
    (find_best_match_threshold user_input knowledge_base t1 = none →
        find_best_match_threshold user_input knowledge_base t2 = none) ∧
      (∀ e1 e2, find_best_match_threshold user_input knowledge_base t1 = some e1 →
        find_best_match_threshold user_input knowledge_base t2 = some e2 → e1 = e2) := by
  unfold find_best_match_threshold
  constructor
  · intro h1
    by_cases hc2 : (knowledge_base.foldl
        (bestStep (vectorize (preprocess user_input))) (none, 0)).2 > t2
    · have hc1 : (knowledge_base.foldl
          (bestStep (vectorize (preprocess user_input))) (none, 0)).2 > t1 :=
        lt_of_le_of_lt h12 hc2
      rw [if_pos hc1] at h1
      rw [if_pos hc2]
      exact h1
    · rw [if_neg hc2]
  · intro e1 e2 he1 he2
    by_cases hc1 : (knowledge_base.foldl
        (bestStep (vectorize (preprocess user_input))) (none, 0)).2 > t1
    · by_cases hc2 : (knowledge_base.foldl
          (bestStep (vectorize (preprocess user_input))) (none, 0)).2 > t2
      · rw [if_pos hc1] at he1
        rw [if_pos hc2] at he2
        exact Option.some_inj.1 (he1.symm.trans he2)
      · rw [if_neg hc2] at he2
        cases he2
    · rw [if_neg hc1] at he1
      cases he1

/-- Witness for C8: the query "banana" shares no token with the corpus question "hello",
so the match is absent at threshold 0.05 and, by monotonicity, at 0.2. -/
theorem threshold_monotone_witness :
    ((0.05 : ℝ) ≤ 0.2) ∧
      find_best_match_threshold "banana" [⟨"hello", "x"⟩] 0.05 = none ∧
      find_best_match_threshold "banana" [⟨"hello", "x"⟩] 0.2 = none := by
  have h := threshold_monotone "banana" [⟨"hello", "x"⟩] 0.05 0.2 (by norm_num)
  have h0 : cosine_similarity (vectorize (preprocess "banana"))
      (vectorize (preprocess "hello")) = 0 :=
    cosine_of_numerator_zero _ _ (by decide)
  have hn : find_best_match_threshold "banana" [⟨"hello", "x"⟩] 0.05 = none := by
    unfold find_best_match_threshold
    norm_num [List.foldl_cons, List.foldl_nil, bestStep, h0]
  exact ⟨by norm_num, hn, h.1 hn⟩

/-- C9: appending a duplicate copy of every entry to the corpus changes neither the
result of `find_best_match` nor the maximal score: the second pass over the duplicates
never strictly improves the running maximum, so the original earliest entry stays
selected. -/
theorem duplicate_corpus_same_result (user_input : String) (knowledge_base : List Entry) :
    find_best_match user_input (knowledge_base ++ knowledge_base)
        = find_best_match user_input knowledge_base ∧
      max_score user_input (knowledge_base ++ knowledge_base)
        = max_score user_input knowledge_base := by
  have habs : (knowledge_base ++ knowledge_base).foldl
      (bestStep (vectorize (preprocess user_input))) (none, 0)
      = knowledge_base.foldl (bestStep (vectorize (preprocess user_input))) (none, 0) := by
    rw [List.foldl_append]
    apply foldl_bestStep_absorb
    intro e he
    exact foldl_bestStep_le _ _ _ e he
  constructor
  · unfold find_best_match find_best_match_threshold
    rw [habs]
  · rw [max_score_eq, max_score_eq, habs]

lemma isUpper_iff (c : Char) : c.isUpper = true ↔ 65 ≤ c.toNat ∧ c.toNat ≤ 90 := by
  simp only [Char.isUpper, Char.toNat, UInt32.le_def, BitVec.le_def, Bool.and_eq_true,
    decide_eq_true_eq, ge_iff_le]
  exact Iff.rfl

lemma charOfNat_toNat {n : Nat} (h : n < 55296) : (Char.ofNat n).toNat = n := by
  have hv : n.isValidChar := Or.inl h
  rw [Char.ofNat, dif_pos hv]
  simp [Char.ofNatAux, Char.toNat, UInt32.toNat]

lemma toLower_isUpper_false (c : Char) : c.toLower.isUpper = false := by
  rw [Bool.eq_false_iff]
  intro habs
  rw [Char.toLower] at habs
  rcases Decidable.em (65 ≤ c.toNat ∧ c.toNat ≤ 90) with h | h
  · rw [if_pos ⟨h.1, h.2⟩, isUpper_iff, charOfNat_toNat (by omega)] at habs
    omega
  · rw [if_neg (fun hc => h ⟨hc.1, hc.2⟩), isUpper_iff] at habs
    exact h habs

lemma splitContraction_chars (v v' : List Char) (h : v' ∈ splitContraction v) :
    ∀ c ∈ v', c ∈ v := by
  unfold splitContraction at h
  split at h
  · rename_i hcond
    rcases List.mem_cons.1 h with h1 | h2
    · subst h1
      exact fun c hc => List.take_subset _ _ hc
    · have hv : v' = ['n', '\x27', 't'] := List.mem_singleton.1 h2
      subst hv
      intro c hc
      rw [← hcond.2] at hc
      exact List.drop_subset _ _ hc
  · have hv : v' = v := List.mem_singleton.1 h
    subst hv
    exact fun c hc => hc

lemma edgeSplit_chars (w w' : List Char) (hw : w' ∈ edgeSplit w) : ∀ c ∈ w', c ∈ w := by
  unfold edgeSplit at hw
  rcases List.mem_append.1 hw with hab | hsuf
  · rcases List.mem_append.1 hab with hpre | hmid
    · rcases List.mem_map.1 hpre with ⟨c0, hc0, rfl⟩
      intro c hc
      have hcc : c = c0 := List.mem_singleton.1 hc
      subst hcc
      exact (List.takeWhile_sublist _).subset hc0
    · split at hmid
      · cases hmid
      · intro c hc
        have hcc := splitContraction_chars _ _ hmid c hc
        have h1 := List.mem_reverse.1 hcc
        have h2 := (List.dropWhile_sublist _).subset h1
        have h3 := List.mem_reverse.1 h2
        exact (List.dropWhile_sublist _).subset h3
  · rcases List.mem_map.1 hsuf with ⟨c0, hc0, rfl⟩
    intro c hc
    have hcc : c = c0 := List.mem_singleton.1 hc
    subst hcc
    have h1 := List.mem_reverse.1 hc0
    have h2 := (List.takeWhile_sublist _).subset h1
    have h3 := List.mem_reverse.1 h2
    exact (List.dropWhile_sublist _).subset h3

lemma splitChunks_chars (l : List Char) : ∀ (acc w : List Char),
    w ∈ splitChunks l acc → ∀ c ∈ w, c ∈ l ∨ c ∈ acc := by
  induction l with
  | nil =>
    intro acc w hw c hc
    simp only [splitChunks] at hw
    by_cases h : acc = []
    · rw [if_pos h] at hw
      cases hw
    · rw [if_neg h] at hw
      have hv : w = acc.reverse := List.mem_singleton.1 hw
      subst hv
      exact Or.inr (List.mem_reverse.1 hc)
  | cons d ds ih =>
    intro acc w hw c hc
    simp only [splitChunks] at hw
    by_cases hd : d.isWhitespace = true
    · rw [if_pos hd] at hw
      rcases List.mem_append.1 hw with h1 | h2
      · by_cases h : acc = []
        · rw [if_pos h] at h1
          cases h1
        · rw [if_neg h] at h1
          have hv : w = acc.reverse := List.mem_singleton.1 h1
          subst hv
          exact Or.inr (List.mem_reverse.1 hc)
      · rcases ih [] w h2 c hc with h | h
        · exact Or.inl (List.mem_cons_of_mem d h)
        · cases h
    · rw [if_neg hd] at hw
      rcases ih (d :: acc) w hw c hc with h | h
      · exact Or.inl (List.mem_cons_of_mem d h)
      · rcases List.mem_cons.1 h with h | h
        · subst h
          exact Or.inl (List.mem_cons_self c ds)
        · exact Or.inr h

lemma word_tokenize_chars (s : String) (tok : String) (h : tok ∈ word_tokenize s) :
    ∀ c ∈ tok.toList, c ∈ s.toList := by
  unfold word_tokenize at h
  rcases List.mem_map.1 h with ⟨w, hw, rfl⟩
  rcases List.mem_flatten.1 hw with ⟨part, hpart, hwin⟩
  rcases List.mem_map.1 hpart with ⟨chunk, hchunk, rfl⟩
  intro c hc
  have hcw : c ∈ w := hc
  have hcchunk : c ∈ chunk := edgeSplit_chars chunk w hwin c hcw
  rcases splitChunks_chars s.toList [] chunk hchunk c hcchunk with h | h
  · exact h
  · cases h

lemma lower_chars (s : String) (c : Char) (hc : c ∈ (lower s).toList) :
    c.isUpper = false := by
  unfold lower at hc
  rcases List.mem_map.1 hc with ⟨c0, hm, rfl⟩
  exact toLower_isUpper_false c0

lemma lemmatize_eq_or_mem (w : String) :
    lemmatize w = w ∨ lemmatize w ∈ (["dog", "cat", "question", "answer",
      "name", "child", "can", "will"] : List String) := by
  unfold lemmatize
  split_ifs <;> simp

lemma lemma_table_good : ∀ x ∈ (["dog", "cat", "question", "answer",
      "name", "child", "can", "will"] : List String),
    (∀ c ∈ x.toList, c.isUpper = false) ∧ isalnum x = true := by decide

/-- C10 counterexample: the stop-word filter is applied to the surface token before
lemmatization, and the lemmatizer maps the non-stop-word "cans" to "can", which is in
the English stop-word list — so the output of `preprocess` can contain a stop word,
refuting the claim that no output token is a member of the stop-word set. -/
theorem lemmatized_stop_word_counterexample :
    preprocess "cans" = ["can"] ∧ "can" ∈ stop_words := by
  exact ⟨by decide, by decide⟩

/-- C10 amended: every token produced by `preprocess` is free of upper-case letters and
passes the `isalnum` check, and it is the lemma of a surface token that was itself
alphanumeric and not a stop word (the stop-word filter runs on the surface token, before
lemmatization, so the lemmatized output token can still be a stop word); stop-word
removal and lemmatization are unconditionally applied ("the dogs" loses "the" and maps
"dogs" to "dog"; there is no toggle in the code path). -/
theorem preprocess_tokens_lower_alnum :
    (∀ text : String, ∀ tok ∈ preprocess text,
        (∀ c ∈ tok.toList, c.isUpper = false) ∧ isalnum tok = true ∧
          ∃ w, isalnum w = true ∧ w ∉ stop_words ∧ tok = lemmatize w) ∧
      preprocess "the dogs" = ["dog"] := by
  constructor
  · intro text tok htok
    unfold preprocess at htok
    rcases List.mem_map.1 htok with ⟨w, hw, rfl⟩
    rcases List.mem_filter.1 hw with ⟨hwmem, hwpred⟩
    rw [Bool.and_eq_true] at hwpred
    have halnum : isalnum w = true := hwpred.1
    have hstop : w ∉ stop_words := by
      have hb := hwpred.2
      simpa using hb
    have hupper : ∀ c ∈ w.toList, c.isUpper = false := by
      intro c hc
      exact lower_chars text c (word_tokenize_chars (lower text) w hwmem c hc)
    refine ⟨?_, ?_, w, halnum, hstop, rfl⟩
    · rcases lemmatize_eq_or_mem w with hid | hmem
      · rw [hid]
        exact hupper
      · exact (lemma_table_good _ hmem).1
    · rcases lemmatize_eq_or_mem w with hid | hmem
      · rw [hid]
        exact halnum
      · exact (lemma_table_good _ hmem).2
  · decide

/-- Witness for C10 amended at the text "HELLO Cans" and its output token "can": the
token is lower-case and alphanumeric and is the lemma of the filtered surface token
"cans". -/
theorem preprocess_tokens_lower_alnum_witness :
    (∀ c ∈ ("can" : String).toList, c.isUpper = false) ∧ isalnum "can" = true ∧
      ∃ w, isalnum w = true ∧ w ∉ stop_words ∧ "can" = lemmatize w :=
  preprocess_tokens_lower_alnum.1 "HELLO Cans" "can" (by decide)

end Safebot
